import Mathlib

/-!
Verification of the artist/works table program (`src/main.rs`).

The program builds a `HashMap<String, Vec<String>>` mapping artist names to
lists of work titles, asserts that `table["Gesualdo"][0]` equals
`"many madrigals"`, and sorts each artist's work list in place with
`Vec::sort`.  A printing function `show` is defined, but both of its call
sites are commented out, so the executed program prints only
`"Hello, world!"`.

Embedding choices:
* A `Table` is an association list in insertion order; `Table.insert`
  follows `HashMap::insert` (replace the value when the key is present,
  append otherwise).  Iteration order of the model is insertion order,
  one admissible choice for the unspecified `HashMap` iteration order.
* `Vec::sort` on `String` uses Rust's `Ord`, lexicographic on UTF-8 bytes;
  byte order of UTF-8 coincides with code-point order, i.e. with the
  lexicographic order on the strings' character lists.  We model the
  comparison as `strLe` (lexicographic on `String.data`) and the sort as
  `List.insertionSort strLe`.  `strLe` is antisymmetric, so a sorted
  permutation of a list is unique and any correct sort agrees with this
  model.
* The nested `for` loops of `show` become tail-recursive loops
  accumulating the printed lines.
* The fallible steps of `main` (`table["Gesualdo"]`, `[0]`, `assert_eq!`)
  are modelled in `Option`, with `none` standing for a panic.
-/

namespace RustRefs

/-- Models `HashMap<String, Vec<String>>` as an association list kept in
insertion order with unique keys. -/
abbrev Table := List (String × List String)

/-- Models `HashMap::insert`: replace the value when the key is already
present, otherwise add a new binding at the end. -/
def Table.insert (t : Table) (k : String) (v : List String) : Table :=
  if t.any (fun p => p.1 == k) then
    t.map (fun p => if p.1 == k then (k, v) else p)
  else
    t ++ [(k, v)]

/-- Lookup of a key's value list, `none` when the key is absent
(`HashMap` indexing panics in that case). -/
def Table.get (t : Table) (k : String) : Option (List String) :=
  (t.find? (fun p => p.1 == k)).map Prod.snd

/-- The comparison used by `works.sort()`: Rust's `Ord` on `String`, which
is lexicographic on the UTF-8 bytes, equivalently on the character
sequences `String.data`. -/
def strLe (a b : String) : Prop := a.data ≤ b.data

instance strLe.dec : DecidableRel strLe := fun a b =>
  inferInstanceAs (Decidable (a.data ≤ b.data))

/-- The construction phase of `main`: the three `table.insert(...)` calls
on a fresh table, with their literal arguments. -/
def buildTable : Table :=
  Table.insert
    (Table.insert
      (Table.insert ([] : Table)
        "Gesualdo" ["many madrigals", "Tenebrae Responsoria"])
      "Caravaggio" ["The Musicians", "The Calling of St. Matthew"])
    "Cellini" ["Perseus with the head of Medusa", "a salt cellar"]

/-- Models `sort_works`: sort each artist's work list in place. -/
def sort_works (t : Table) : Table :=
  t.map (fun p => (p.1, p.2.insertionSort strLe))

/-- The inner `for work in works` loop of `show`, accumulating the lines
printed so far: each work prints on its own line behind one space. -/
def showWorksLoop (out : List String) : List String → List String
  | [] => out
  | w :: ws => showWorksLoop (out ++ [" " ++ w]) ws

/-- The outer `for (artist, works) in table` loop of `show`: a header line
per artist, then the inner loop over that artist's works. -/
def showTableLoop (out : List String) : Table → List String
  | [] => out
  | (artist, works) :: rest =>
      showTableLoop (showWorksLoop (out ++ ["works by " ++ artist ++ ":"]) works) rest

/-- The lines printed by one call of `show` on a table. -/
def show_table (t : Table) : List String := showTableLoop [] t

/-- The expression `table[k][i]` of `main`: indexing panics (here: `none`)
when the key is absent or the index is out of bounds. -/
def tableIndex (t : Table) (k : String) (i : Nat) : Option String :=
  (Table.get t k).bind fun ws => ws[i]?

/-- The executed statements of `main`: print `"Hello, world!"`, build the
table, run `assert_eq!(table["Gesualdo"][0], "many madrigals")` (a panic
is `none`), then `sort_works(&mut table)`.  Both calls of `show` are
commented out in the source, so no further line is printed.  Returns the
final table and the printed lines. -/
def mainRun : Option (Table × List String) :=
  let out := ["Hello, world!"]
  let table := buildTable
  (tableIndex table "Gesualdo" 0).bind fun w =>
    if w = "many madrigals" then some (sort_works table, out) else none

/-- The lines printed by the executed program, `none` on a panic. -/
def mainOutput : Option (List String) := mainRun.map Prod.snd

/-- Program state for the sequencing model: the owned table and the
output printed so far. -/
structure PState where
  table : Table
  out : List String

/-- One call `show(&table)` as a state transformer: it appends the lines
of `show` to the output and has shared (read-only) access to the table. -/
def showCall (s : PState) : PState :=
  { table := s.table, out := s.out ++ show_table s.table }

/-! ### Order facts about `strLe` -/

theorem strLe_iff_le (a b : String) : strLe a b ↔ a ≤ b := by
  rw [String.le_iff_toList_le]
  exact Iff.rfl

instance : IsTotal String strLe :=
  ⟨fun a b => le_total a.data b.data⟩

instance : IsTrans String strLe :=
  ⟨fun _ _ _ hab hbc => le_trans hab hbc⟩

/-! ### Helper lemmas -/

theorem showWorksLoop_eq (ws : List String) :
    ∀ out, showWorksLoop out ws = out ++ ws.map (fun w => " " ++ w) := by
  induction ws with
  | nil => intro out; simp [showWorksLoop]
  | cons w ws ih =>
      intro out
      simp [showWorksLoop, ih]

theorem showTableLoop_eq (t : Table) :
    ∀ out, showTableLoop out t
      = out ++ t.flatMap (fun p => ("works by " ++ p.1 ++ ":") :: p.2.map (fun w => " " ++ w)) := by
  induction t with
  | nil => intro out; simp [showTableLoop]
  | cons p rest ih =>
      intro out
      cases p with
      | mk artist works =>
          simp [showTableLoop, showWorksLoop_eq, ih]

theorem sortList_idem (l : List String) :
    (l.insertionSort strLe).insertionSort strLe = l.insertionSort strLe :=
  (List.sorted_insertionSort strLe l).insertionSort_eq

/-! ### The claims -/

/-- C1 (counterexample): sorting the Cellini works list with the
program's sort does NOT give `["a salt cellar", "Perseus with the head of
Medusa"]`: uppercase `'P'` precedes lowercase `'a'`, so the claimed order
is wrong. -/
theorem sortCellini_not_reordered :
    Table.get (sort_works buildTable) "Cellini"
      ≠ some ["a salt cellar", "Perseus with the head of Medusa"] := by
  decide

/-- C1 (amended): `"Perseus with the head of Medusa" ≤ "a salt cellar"`
holds under case-sensitive order (`'P'` = 0x50 < `'a'` = 0x61), so
sorting leaves Cellini's list unchanged, in its inserted order. -/
theorem sortCellini_unchanged :
    strLe "Perseus with the head of Medusa" "a salt cellar"
    ∧ Table.get (sort_works buildTable) "Cellini"
        = some ["Perseus with the head of Medusa", "a salt cellar"] := by
  decide

/-- C2: after `sort_works`, every artist's work list in the resulting
table is in non-decreasing lexicographic order. -/
theorem sort_works_sorted (t : Table) (p : String × List String)
    (hp : p ∈ sort_works t) : p.2.Sorted (· ≤ ·) := by
  simp only [sort_works, List.mem_map] at hp
  obtain ⟨q, -, rfl⟩ := hp
  exact (List.sorted_insertionSort strLe q.2).imp fun h => (strLe_iff_le _ _).mp h

/-- C2 (witness): the sorted table of `main` contains the Cellini entry,
and its work list is sorted. -/
theorem sort_works_sorted_witness :
    (("Cellini", ["Perseus with the head of Medusa", "a salt cellar"])
        ∈ sort_works buildTable)
    ∧ (["Perseus with the head of Medusa", "a salt cellar"] : List String).Sorted (· ≤ ·) :=
  ⟨by decide,
   sort_works_sorted buildTable
     ("Cellini", ["Perseus with the head of Medusa", "a salt cellar"]) (by decide)⟩

/-- C3: for every table and key, the multiset of works mapped to that key
after `sort_works` equals the multiset mapped to it before: sorting is a
permutation of each list and changes no title. -/
theorem sort_works_multiset (t : Table) (k : String) :
    (Table.get (sort_works t) k).map (fun l => (l : Multiset String))
      = (Table.get t k).map (fun l => (l : Multiset String)) := by
  induction t with
  | nil => rfl
  | cons p rest ih =>
      by_cases h : p.1 == k
      · simp only [sort_works, List.map_cons, Table.get, List.find?, h,
          Option.map_some]
        exact congrArg some (Multiset.coe_eq_coe.mpr (List.perm_insertionSort strLe p.2))
      · simp only [sort_works, List.map_cons, Table.get, List.find?, h] at ih ⊢
        exact ih

/-- C4 (counterexample): `"Gesualdo"` is an artist of the table, yet the
program's output holds no `"works by Gesualdo:"` header: both calls of
`show` are commented out, and the only line printed is
`"Hello, world!"`. -/
theorem main_prints_no_artist_lines :
    "Gesualdo" ∈ List.map Prod.fst buildTable
    ∧ mainOutput = some ["Hello, world!"]
    ∧ "works by Gesualdo:" ∉ mainOutput.getD [] := by
  decide

/-- C4 (amended): the `show` function, when invoked on a table, produces
one header line `"works by <name>:"` per artist followed by one line per
work indented by one space, in iteration order; but `main` never invokes
it, so each invocation of the program prints only `"Hello, world!"`. -/
theorem show_table_format (t : Table) :
    show_table t
      = t.flatMap (fun p => ("works by " ++ p.1 ++ ":") :: p.2.map (fun w => " " ++ w))
    ∧ mainOutput = some ["Hello, world!"] :=
  ⟨by simpa [show_table] using showTableLoop_eq t [], rfl⟩

/-- C5: after the construction phase the table holds exactly the keys
`"Gesualdo"`, `"Caravaggio"`, `"Cellini"`, each mapped to its two literal
work titles in insertion order. -/
theorem buildTable_entries :
    buildTable
      = [("Gesualdo", ["many madrigals", "Tenebrae Responsoria"]),
         ("Caravaggio", ["The Musicians", "The Calling of St. Matthew"]),
         ("Cellini", ["Perseus with the head of Medusa", "a salt cellar"])]
    ∧ List.map Prod.fst buildTable = ["Gesualdo", "Caravaggio", "Cellini"] := by
  decide

/-- C6: `sort_works` is idempotent: sorting twice yields the same table
as sorting once. -/
theorem sort_works_idem (t : Table) :
    sort_works (sort_works t) = sort_works t := by
  induction t with
  | nil => rfl
  | cons p rest ih =>
      simp only [sort_works, List.map_cons, List.map_map] at ih ⊢
      exact List.cons_eq_cons.mpr ⟨by simp [sortList_idem], ih⟩

/-- C7: any number of `show` calls leaves the table unchanged: the caller
retains the same table afterward. -/
theorem showCall_table_const (s : PState) (n : Nat) :
    (showCall^[n] s).table = s.table := by
  induction n generalizing s with
  | zero => rfl
  | succ n ih =>
      rw [Function.iterate_succ_apply]
      exact ih (showCall s)

/-- C8: `main` over its fixed literal data is total: the lookup, the
indexing and the assertion all succeed, no panic (`none`) is reached, and
the run ends with the sorted table and the single line printed. -/
theorem mainRun_total :
    mainRun = some
      ([("Gesualdo", ["Tenebrae Responsoria", "many madrigals"]),
        ("Caravaggio", ["The Calling of St. Matthew", "The Musicians"]),
        ("Cellini", ["Perseus with the head of Medusa", "a salt cellar"])],
       ["Hello, world!"]) := by
  decide

/-- C9: the assertion of `main` is valid and in-bounds: `"Gesualdo"` is
present after the insertions, its work list is non-empty, and the element
at index 0 equals `"many madrigals"`. -/
theorem main_assert_valid :
    Table.get buildTable "Gesualdo" = some ["many madrigals", "Tenebrae Responsoria"]
    ∧ (Table.get buildTable "Gesualdo").getD [] ≠ []
    ∧ tableIndex buildTable "Gesualdo" 0 = some "many madrigals" := by
  decide

/-- C10: `sort_works` preserves the key sequence: no artist is added,
removed, renamed or even moved; only the value lists change. -/
theorem sort_works_keys (t : Table) :
    List.map Prod.fst (sort_works t) = List.map Prod.fst t := by
  induction t with
  | nil => rfl
  | cons p rest ih =>
      simp only [sort_works, List.map_cons] at ih ⊢
      exact List.cons_eq_cons.mpr ⟨rfl, ih⟩

end RustRefs
